import Mathlib

/-!
Verification of the snooflake distributed unique ID generator, a shallow
embedding of `snooflake.go`.

Modelling conventions:
* A `time.Time` value is represented by its `UnixNano` reading as an `Int`
  (the `UTC()` conversion does not change the instant).  `time.Now()` is an
  input of every function that reads the clock.
* `int64` fields are embedded as `Int`.  The only `int64` arithmetic the
  allocator performs on them is comparison, assignment from a clock reading
  and an increment by one, so signed-overflow wrapping is unreachable for any
  physically realizable clock reading and call count and is not modelled.
* `uint16` and `uint64` arithmetic wraps and is modelled with explicit
  `% 2 ^ 16` and `% 2 ^ 64` where the Go operation can wrap.
* `sync.Mutex` only serializes calls; the claims below are about the
  state transformation of one serialized call sequence, so the lock itself
  has no observable content in the embedding.
* The `time.Sleep` in the sequence-overflow branch affects timing only, not
  the returned values or the state, and is omitted.
-/

/-- Bit length of the time field, constant `BitLenTime = 39`. -/
def BitLenTime : Nat := 39

/-- Bit length of the sequence field, constant `BitLenSequence = 8`. -/
def BitLenSequence : Nat := 8

/-- Bit length of the machine id field, `63 - BitLenTime - BitLenSequence`. -/
def BitLenMachineID : Nat := 63 - BitLenTime - BitLenSequence

/-- Generator state.  `startTime`, `elapsedTime` are `int64` (as `Int`);
`sequence`, `machineID` are `uint16` (as `Nat`, kept below `2 ^ 16` by every
operation of the code).  The mutex field is not part of the data. -/
structure Snooflake where
  startTime : Int
  elapsedTime : Int
  sequence : Nat
  machineID : Nat
deriving DecidableEq

/-- The constant `snooflakeTimeUnit = 1e6` nanoseconds (source comment: "1 msec"). -/
def snooflakeTimeUnit : Int := 1000000

/-- `toSnooflakeTime(t) = t.UTC().UnixNano() / snooflakeTimeUnit`; Go `int64`
division truncates toward zero, which is `Int.tdiv`. -/
def toSnooflakeTime (tNano : Int) : Int :=
  Int.tdiv tNano snooflakeTimeUnit

/-- `currentElapsedTime(startTime) = toSnooflakeTime(time.Now()) - startTime`,
with `time.Now()` passed explicitly as `nowNano`. -/
def currentElapsedTime (startTime nowNano : Int) : Int :=
  toSnooflakeTime nowNano - startTime

/-- Go conversion `uint64(x)` of an `int64` value `x`: the representative of
`x` modulo `2 ^ 64` (two's-complement reinterpretation). -/
def uint64OfInt (x : Int) : Nat :=
  (x % (2 : Int) ^ 64).toNat

/-- `toID`: fails when `elapsedTime` does not fit in 39 bits
(`sf.elapsedTime >= 1<<BitLenTime`), otherwise packs
`uint64(elapsedTime)<<(BitLenSequence+BitLenMachineID) | uint64(sequence)<<BitLenMachineID | uint64(machineID)`.
The `uint64` shift wraps modulo `2 ^ 64`; the two small fields are below
`2 ^ 16` so their shifted values cannot wrap. -/
def Snooflake.toID (sf : Snooflake) : Except String Nat :=
  if (2 : Int) ^ BitLenTime ≤ sf.elapsedTime then
    .error "over the time limit"
  else
    .ok ((uint64OfInt sf.elapsedTime <<< (BitLenSequence + BitLenMachineID)) % 2 ^ 64 |||
      sf.sequence <<< BitLenMachineID ||| sf.machineID)

/-- `nextID` (the allocation algorithm, running under the lock): reads the
clock, advances the state, then calls `toID`.  `maskSequence = 1<<BitLenSequence - 1`;
the `uint16` increment of `sequence` wraps modulo `2 ^ 16` before masking.
Returns the `toID` result together with the updated state. -/
def Snooflake.nextID (sf : Snooflake) (nowNano : Int) : Except String Nat × Snooflake :=
  let maskSequence : Nat := 1 <<< BitLenSequence - 1
  let current := currentElapsedTime sf.startTime nowNano
  let sf' :=
    if sf.elapsedTime < current then
      { sf with elapsedTime := current, sequence := 0 }
    else
      let seq := (sf.sequence + 1) % 2 ^ 16 &&& maskSequence
      if seq = 0 then
        { sf with sequence := seq, elapsedTime := sf.elapsedTime + 1 }
      else
        { sf with sequence := seq }
  (sf'.toID, sf')

/-- Results of consecutive `nextID` calls on one generator, fed with the given
list of clock readings (one `time.Now()` value per call). -/
def runIDs : Snooflake → List Int → List (Except String Nat)
  | _, [] => []
  | sf, nowNano :: rest =>
    (sf.nextID nowNano).1 :: runIDs (sf.nextID nowNano).2 rest

/-- Loop of `NextIDs`: index `i` over the slice `ids` (allocated by
`make([]uint64, num)`, so zero-filled); on the first `nextID` failure the
current slice and the error are returned, otherwise `ids[i]` is set and the
loop continues.  The loop is embedded by structural recursion on the number
`fuel = num - i` of remaining iterations, so the loop condition `i < num`
reads `0 < fuel`. -/
def nextIDsGo (clock : Nat → Int) : Nat → Nat → List Nat → Snooflake →
    List Nat × Option String × Snooflake
  | _, 0, ids, sf => (ids, none, sf)
  | i, fuel + 1, ids, sf =>
    match sf.nextID (clock i) with
    | (.error e, sf2) => (ids, some e, sf2)
    | (.ok id, sf2) => nextIDsGo clock (i + 1) fuel (ids.set i id) sf2

/-- `NextIDs(num)`: allocates the zero-filled slice and runs the loop, with
the clock readings of the successive iterations given by `clock`. -/
def Snooflake.NextIDs (sf : Snooflake) (clock : Nat → Int) (num : Nat) :
    List Nat × Option String × Snooflake :=
  nextIDsGo clock 0 num (List.replicate num 0) sf

/-- Specification-side helper: the ids the loop of `NextIDs` produces before
its first failure (empty from the failing iteration on), starting at index
`i` with `fuel` remaining iterations. -/
def producedIDs (clock : Nat → Int) : Nat → Nat → Snooflake → List Nat
  | _, 0, _ => []
  | i, fuel + 1, sf =>
    match sf.nextID (clock i) with
    | (.error _, _) => []
    | (.ok id, sf2) => id :: producedIDs clock (i + 1) fuel sf2

/-- `Decompose`: the five parts of an id.  Go's `map[string]uint64` literal is
modelled as an association list in the literal's key order.
`maskSequence = (1<<BitLenSequence - 1) << BitLenMachineID`,
`maskMachineID = 1<<BitLenMachineID - 1`; in Go, `>>` and `&` share one
precedence level and associate to the left, so
`id & maskSequence >> BitLenMachineID` is `(id & maskSequence) >> BitLenMachineID`. -/
def Decompose (id : Nat) : List (String × Nat) :=
  let maskSequence : Nat := (1 <<< BitLenSequence - 1) <<< BitLenMachineID
  let maskMachineID : Nat := 1 <<< BitLenMachineID - 1
  let msb := id >>> 63
  let time := id >>> (BitLenSequence + BitLenMachineID)
  let sequence := (id &&& maskSequence) >>> BitLenMachineID
  let machineID := id &&& maskMachineID
  [("id", id), ("msb", msb), ("time", time), ("sequence", sequence), ("machine-id", machineID)]

/-- One entry of `net.InterfaceAddrs()`: whether the `net.Addr` is a
`*net.IPNet`, whether its IP is loopback, and the result of `To4()` as four
octets (`none` models a nil result, i.e. not an IPv4 address). -/
structure IfAddr where
  isIPNet : Bool
  loopback : Bool
  v4 : Option (Nat × Nat × Nat × Nat)

/-- `isPrivateIPv4(ip)`; the argument `none` models a nil `net.IP`.  In Go,
`&&` binds tighter than `||`. -/
def isPrivateIPv4 : Option (Nat × Nat × Nat × Nat) → Bool
  | none => false
  | some (o0, o1, _, _) =>
    o0 == 10 || (o0 == 172 && (decide (16 ≤ o1) && decide (o1 < 32))) || (o0 == 192 && o1 == 168)

/-- `privateIPv4()`: scan the address list, skip entries that are not a
`*net.IPNet` or are loopback, and return the first `To4()` value that is
private; with no hit, fail.  When `isPrivateIPv4` accepts, the value is
necessarily `some`, so the default of `getD` is never used. -/
def privateIPv4 : List IfAddr → Except String (Nat × Nat × Nat × Nat)
  | [] => .error "no private ip address"
  | a :: rest =>
    if !a.isIPNet || a.loopback then
      privateIPv4 rest
    else if isPrivateIPv4 a.v4 then
      .ok (a.v4.getD (0, 0, 0, 0))
    else
      privateIPv4 rest

/-- `lower16BitPrivateIP()`: `uint16(ip[2])<<8 + uint16(ip[3])` of the selected
address.  The octets are bytes (below `2 ^ 8`), so neither the `uint16` shift
nor the addition can wrap. -/
def lower16BitPrivateIP (addrs : List IfAddr) : Except String Nat :=
  match privateIPv4 addrs with
  | .error e => .error e
  | .ok ip => .ok (ip.2.2.1 <<< 8 + ip.2.2.2)

/-- The zero `time.Time` (January 1, year 1 UTC) as nanoseconds relative to
the Unix epoch: `-62135596800` seconds. -/
def zeroTimeNano : Int := -62135596800 * 1000000000

/-- `time.Date(2014, 9, 1, 0, 0, 0, 0, time.UTC)` as `UnixNano`:
`1409529600` seconds after the Unix epoch. -/
def defaultEpochNano : Int := 1409529600 * 1000000000

/-- `Settings`: `StartTime` is `none` for the zero `time.Time` and `some` of
its `UnixNano` otherwise; the `MachineID` function is modelled by the result
its one invocation during construction returns (`none` models a nil function,
which selects the default derivation); `CheckMachineID` is the validator
(`none` models nil, i.e. no validation). -/
structure Settings where
  StartTime : Option Int
  MachineID : Option (Except String Nat)
  CheckMachineID : Option (Nat → Bool)

/-- `t.After(u)`: strict instant comparison, with `t` a possibly-zero
`time.Time` and `u` an instant. -/
def timeAfter (t : Option Int) (uNano : Int) : Bool :=
  match t with
  | none => decide (zeroTimeNano > uNano)
  | some tNano => decide (tNano > uNano)

/-- Machine id resolution step of `NewSnooflake`: the configured provider if
any, else the default private-IP derivation over the host's addresses. -/
def resolveMachineID (st : Settings) (addrs : List IfAddr) : Except String Nat :=
  match st.MachineID with
  | none => lower16BitPrivateIP addrs
  | some r => r

/-- `NewSnooflake(st)`, with `time.Now()` passed as `nowNano` and the host's
interface addresses as `addrs`.  Mirrors the source order: `sequence` is
initialized to `uint16(1<<BitLenSequence - 1)`, then the future-start check,
the start time resolution, the machine id resolution and the validation;
`nil` is modelled as `none`. -/
def NewSnooflake (st : Settings) (nowNano : Int) (addrs : List IfAddr) : Option Snooflake :=
  if timeAfter st.StartTime nowNano then
    none
  else
    let startT :=
      match st.StartTime with
      | none => toSnooflakeTime defaultEpochNano
      | some t => toSnooflakeTime t
    match resolveMachineID st addrs with
    | .error _ => none
    | .ok mid =>
      match st.CheckMachineID with
      | some check => if check mid then some ⟨startT, 0, 1 <<< BitLenSequence - 1, mid⟩ else none
      | none => some ⟨startT, 0, 1 <<< BitLenSequence - 1, mid⟩

/-- Proof-side abbreviation: the numeric value `toID` packs for an in-range
state. -/
def idNat (sf : Snooflake) : Nat :=
  sf.elapsedTime.toNat * 2 ^ 24 + sf.sequence * 2 ^ 16 + sf.machineID

/-- Bounds holding for every reachable generator state: `elapsedTime` is
nonnegative, `sequence` is below `2 ^ 8` and `machineID` is a `uint16`
value. -/
def StateInv (sf : Snooflake) : Prop :=
  0 ≤ sf.elapsedTime ∧ sf.sequence < 2 ^ 8 ∧ sf.machineID < 2 ^ 16

/-- Successful results of a list of allocation results, in order. -/
def successes (rs : List (Except String Nat)) : List Nat :=
  rs.filterMap Except.toOption

/-- Refinement-side definition, following the spec's words: an IPv4 address
(as octets) lies in `10.0.0.0/8`, `172.16.0.0/12` or `192.168.0.0/16`. -/
def specPrivateRange (ip : Nat × Nat × Nat × Nat) : Prop :=
  ip.1 = 10 ∨ (ip.1 = 172 ∧ 16 ≤ ip.2.1 ∧ ip.2.1 ≤ 31) ∨ (ip.1 = 192 ∧ ip.2.1 = 168)

/-- Proof-side restatement of the state update of `nextID` (steps 2 and 3 of
the allocation algorithm), with the masked `uint16` increment written as a
remainder; `nextID` is proved equal to `toID` after this update. -/
def nextState (sf : Snooflake) (nowNano : Int) : Snooflake :=
  let current := currentElapsedTime sf.startTime nowNano
  if sf.elapsedTime < current then
    { sf with elapsedTime := current, sequence := 0 }
  else if (sf.sequence + 1) % 2 ^ 8 = 0 then
    { sf with sequence := (sf.sequence + 1) % 2 ^ 8, elapsedTime := sf.elapsedTime + 1 }
  else
    { sf with sequence := (sf.sequence + 1) % 2 ^ 8 }

theorem bitLenTime_eq : BitLenTime = 39 := rfl

theorem bitLenMachineID_eq : BitLenMachineID = 16 := by decide

theorem bitLenShift_time : BitLenSequence + BitLenMachineID = 24 := by decide

theorem seqMask_eq_mod (s : Nat) :
    (s + 1) % 2 ^ 16 &&& (1 <<< BitLenSequence - 1) = (s + 1) % 2 ^ 8 := by
  rw [show (1 <<< BitLenSequence - 1 : Nat) = 2 ^ 8 - 1 by decide,
    Nat.and_pow_two_sub_one_eq_mod]
  exact Nat.mod_mod_of_dvd _ (by decide)

theorem uint64OfInt_small {x : Int} (h0 : 0 ≤ x) (h : x < 2 ^ 64) :
    uint64OfInt x = x.toNat := by
  unfold uint64OfInt
  rw [Int.emod_eq_of_lt h0 h]

theorem pack_mod_eq {t : Nat} (ht : t < 2 ^ 39) : t <<< 24 % 2 ^ 64 = t <<< 24 := by
  rw [Nat.shiftLeft_eq]
  exact Nat.mod_eq_of_lt (by omega)

theorem pack_or_eq_add {t s m : Nat} (ht : t < 2 ^ 39) (hs : s < 2 ^ 8) (hm : m < 2 ^ 16) :
    t <<< 24 ||| s <<< 16 ||| m = t * 2 ^ 24 + s * 2 ^ 16 + m := by
  have h1 : t <<< 24 = 2 ^ 24 * t := by rw [Nat.shiftLeft_eq]; ring
  have h2 : s <<< 16 = 2 ^ 16 * s := by rw [Nat.shiftLeft_eq]; ring
  have ha : 2 ^ 24 * t ||| 2 ^ 16 * s = 2 ^ 24 * t + 2 ^ 16 * s :=
    (Nat.mul_add_lt_is_or (by omega) t).symm
  have hc : 2 ^ 24 * t + 2 ^ 16 * s = 2 ^ 16 * (2 ^ 8 * t + s) := by ring
  have hb : 2 ^ 16 * (2 ^ 8 * t + s) + m = 2 ^ 16 * (2 ^ 8 * t + s) ||| m :=
    Nat.mul_add_lt_is_or hm _
  rw [h1, h2, ha, hc, ← hb]
  ring

theorem toID_eq_error_iff (sf : Snooflake) :
    sf.toID = .error "over the time limit" ↔ (2 : Int) ^ 39 ≤ sf.elapsedTime := by
  unfold Snooflake.toID
  rw [bitLenTime_eq]
  split <;> simp_all

theorem toID_ok_elapsed_lt {sf : Snooflake} {w : Nat} (h : sf.toID = .ok w) :
    sf.elapsedTime < (2 : Int) ^ 39 := by
  unfold Snooflake.toID at h
  rw [bitLenTime_eq] at h
  by_contra hc
  rw [if_pos (by omega)] at h
  exact Except.noConfusion h

theorem toID_eq_ok (sf : Snooflake) (h0 : 0 ≤ sf.elapsedTime)
    (h39 : sf.elapsedTime < (2 : Int) ^ 39) (hs : sf.sequence < 2 ^ 8)
    (hm : sf.machineID < 2 ^ 16) : sf.toID = .ok (idNat sf) := by
  unfold Snooflake.toID
  rw [bitLenTime_eq, if_neg (by omega), bitLenShift_time, bitLenMachineID_eq,
    uint64OfInt_small h0 (by omega)]
  have ht : sf.elapsedTime.toNat < 2 ^ 39 := by omega
  rw [pack_mod_eq ht, pack_or_eq_add ht hs hm]
  rfl

theorem nextID_eq (sf : Snooflake) (nowNano : Int) :
    sf.nextID nowNano = ((nextState sf nowNano).toID, nextState sf nowNano) := by
  unfold Snooflake.nextID nextState
  simp only [seqMask_eq_mod]

theorem nextState_elapsed_le (sf : Snooflake) (nowNano : Int) :
    sf.elapsedTime ≤ (nextState sf nowNano).elapsedTime := by
  unfold nextState
  dsimp only
  split_ifs <;> dsimp only <;> omega

theorem nextState_inv {sf : Snooflake} (h : StateInv sf) (nowNano : Int) :
    StateInv (nextState sf nowNano) := by
  obtain ⟨h0, hs, hm⟩ := h
  unfold nextState StateInv
  dsimp only
  split_ifs <;> dsimp only <;> omega

theorem idNat_lt_nextState {sf : Snooflake} (h : StateInv sf) (nowNano : Int) :
    idNat sf < idNat (nextState sf nowNano) := by
  obtain ⟨h0, hs, hm⟩ := h
  unfold idNat nextState
  dsimp only
  split_ifs <;> dsimp only <;> omega

theorem nextID_fst (sf : Snooflake) (nowNano : Int) :
    (sf.nextID nowNano).1 = (nextState sf nowNano).toID := by rw [nextID_eq]

theorem nextID_snd (sf : Snooflake) (nowNano : Int) :
    (sf.nextID nowNano).2 = nextState sf nowNano := by rw [nextID_eq]

theorem successes_cons_ok (v : Nat) (rs : List (Except String Nat)) :
    successes (.ok v :: rs) = v :: successes rs := rfl

theorem successes_cons_error (e : String) (rs : List (Except String Nat)) :
    successes (.error e :: rs) = successes rs := rfl

theorem runIDs_cons (sf : Snooflake) (n : Int) (ns : List Int) :
    runIDs sf (n :: ns) = (nextState sf n).toID :: runIDs (nextState sf n) ns := by
  rw [runIDs, nextID_fst, nextID_snd]

theorem toID_ok_val {sf : Snooflake} (h : StateInv sf) {w : Nat} (hw : sf.toID = .ok w) :
    w = idNat sf := by
  obtain ⟨h0, hs, hm⟩ := h
  have heq := (toID_eq_ok sf h0 (toID_ok_elapsed_lt hw) hs hm).symm.trans hw
  injection heq with heq
  exact heq.symm

theorem successes_runIDs_gt (nows : List Int) :
    ∀ {sf : Snooflake}, StateInv sf →
      ∀ v ∈ successes (runIDs sf nows), idNat sf < v := by
  induction nows with
  | nil => intro sf _ v hv; simp [runIDs, successes] at hv
  | cons n ns ih =>
    intro sf h v hv
    rw [runIDs_cons] at hv
    have hinv2 := nextState_inv h n
    have hlt := idNat_lt_nextState h n
    rcases hok : (nextState sf n).toID with e | w
    · rw [hok, successes_cons_error] at hv
      exact lt_trans hlt (ih hinv2 v hv)
    · rw [hok, successes_cons_ok] at hv
      rcases List.mem_cons.mp hv with rfl | hv2
      · rw [toID_ok_val hinv2 hok]
        exact hlt
      · exact lt_trans hlt (ih hinv2 v hv2)

theorem successes_runIDs_pairwise (nows : List Int) :
    ∀ {sf : Snooflake}, StateInv sf →
      List.Pairwise (· < ·) (successes (runIDs sf nows)) := by
  induction nows with
  | nil => intro sf _; simp [runIDs, successes]
  | cons n ns ih =>
    intro sf h
    rw [runIDs_cons]
    have hinv2 := nextState_inv h n
    rcases hok : (nextState sf n).toID with e | w
    · rw [successes_cons_error]
      exact ih hinv2
    · rw [successes_cons_ok]
      refine List.pairwise_cons.mpr ⟨?_, ih hinv2⟩
      intro b hb
      rw [toID_ok_val hinv2 hok]
      exact successes_runIDs_gt ns hinv2 b hb

/-- C2: for a single generator, for every sequence of clock readings fed to
consecutive allocation calls (stalled and backward readings included), the
successful `nextID` results are strictly increasing in call order.  The
hypotheses are the state bounds every reachable generator satisfies
(construction starts at `elapsedTime = 0`, `sequence = 2 ^ 8 - 1`, a `uint16`
machine id). -/
theorem nextID_successive_ids_strictly_increasing (sf : Snooflake) (nows : List Int)
    (h0 : 0 ≤ sf.elapsedTime) (hs : sf.sequence < 2 ^ 8) (hm : sf.machineID < 2 ^ 16) :
    List.Pairwise (· < ·) (successes (runIDs sf nows)) :=
  successes_runIDs_pairwise nows ⟨h0, hs, hm⟩

theorem nextID_successive_ids_strictly_increasing_witness :
    (0 : Int) ≤ 0 ∧ 255 < 2 ^ 8 ∧ 77 < 2 ^ 16 ∧
    List.Pairwise (· < ·)
      (successes (runIDs ⟨0, 0, 255, 77⟩ [1000000, 1000000, 1000000, 5000000])) :=
  ⟨le_refl 0, by decide, by decide,
    nextID_successive_ids_strictly_increasing ⟨0, 0, 255, 77⟩ _
      (le_refl 0) (by decide) (by decide)⟩

theorem toID_error_of_overflow {sf : Snooflake} (h : (2 : Int) ^ 39 ≤ sf.elapsedTime) :
    sf.toID = .error "over the time limit" := (toID_eq_error_iff sf).mpr h

theorem runIDs_all_error (nows : List Int) :
    ∀ {sf : Snooflake}, (2 : Int) ^ 39 ≤ sf.elapsedTime →
      ∀ r ∈ runIDs sf nows, r = .error "over the time limit" := by
  induction nows with
  | nil => intro sf _ r hr; simp [runIDs] at hr
  | cons n ns ih =>
    intro sf h r hr
    rw [runIDs_cons] at hr
    rcases List.mem_cons.mp hr with rfl | hr2
    · exact toID_error_of_overflow (le_trans h (nextState_elapsed_le sf n))
    · exact ih (le_trans h (nextState_elapsed_le sf n)) r hr2

/-- C5: an allocation fails with the time-overflow error exactly when the
generator's `elapsedTime` after the state update of the call is at least
`2 ^ 39`, and after one such failure every later allocation on the same
generator fails too, whatever clock readings it sees. -/
theorem nextID_overflow_iff_permanent (sf : Snooflake) (nowNano : Int) :
    ((sf.nextID nowNano).1 = .error "over the time limit" ↔
      (2 : Int) ^ 39 ≤ (sf.nextID nowNano).2.elapsedTime) ∧
    ((sf.nextID nowNano).1 = .error "over the time limit" →
      ∀ (nows : List Int), ∀ r ∈ runIDs (sf.nextID nowNano).2 nows,
        r = .error "over the time limit") := by
  rw [nextID_fst, nextID_snd]
  exact ⟨toID_eq_error_iff _,
    fun h nows => runIDs_all_error nows ((toID_eq_error_iff _).mp h)⟩

theorem nextID_overflow_iff_permanent_witness :
    (2 : Int) ^ 39 ≤ (Snooflake.nextID ⟨0, 2 ^ 39, 0, 1⟩ 0).2.elapsedTime ∧
    (Snooflake.nextID ⟨0, 2 ^ 39, 0, 1⟩ 0).1 = .error "over the time limit" ∧
    ((Snooflake.nextID ⟨0, 2 ^ 39, 0, 1⟩ 0).2.nextID 5).1 = .error "over the time limit" := by
  have h := nextID_overflow_iff_permanent ⟨0, 2 ^ 39, 0, 1⟩ 0
  have hge : (2 : Int) ^ 39 ≤ (Snooflake.nextID ⟨0, 2 ^ 39, 0, 1⟩ 0).2.elapsedTime := by decide
  have herr := h.1.mpr hge
  exact ⟨hge, herr, h.2 herr [5] _ (List.mem_singleton_self _)⟩

/-- C6: one allocation step either adopts a strictly newer clock reading and
resets the sequence, or increments the sequence modulo `2 ^ 8`, borrowing the
next time unit exactly when the increment wraps to zero. -/
theorem nextID_state_transition (sf : Snooflake) (nowNano : Int) :
    (sf.elapsedTime < currentElapsedTime sf.startTime nowNano →
      (sf.nextID nowNano).2 =
        { sf with elapsedTime := currentElapsedTime sf.startTime nowNano, sequence := 0 }) ∧
    (currentElapsedTime sf.startTime nowNano ≤ sf.elapsedTime →
      (sf.nextID nowNano).2.sequence = (sf.sequence + 1) % 2 ^ 8 ∧
      (sf.nextID nowNano).2.startTime = sf.startTime ∧
      (sf.nextID nowNano).2.machineID = sf.machineID ∧
      ((sf.sequence + 1) % 2 ^ 8 = 0 →
        (sf.nextID nowNano).2.elapsedTime = sf.elapsedTime + 1) ∧
      ((sf.sequence + 1) % 2 ^ 8 ≠ 0 →
        (sf.nextID nowNano).2.elapsedTime = sf.elapsedTime)) := by
  rw [nextID_snd]
  unfold nextState
  dsimp only
  constructor
  · intro h
    rw [if_pos h]
  · intro h
    rw [if_neg (by omega)]
    by_cases h2 : (sf.sequence + 1) % 2 ^ 8 = 0
    · rw [if_pos h2]
      exact ⟨rfl, rfl, rfl, fun _ => rfl, fun hc => absurd h2 hc⟩
    · rw [if_neg h2]
      exact ⟨rfl, rfl, rfl, fun hc => absurd hc h2, fun _ => rfl⟩

theorem nextID_state_transition_witness :
    currentElapsedTime (0 : Int) 0 ≤ (5 : Int) ∧
    (Snooflake.nextID ⟨0, 5, 3, 9⟩ 0).2.sequence = (3 + 1) % 2 ^ 8 ∧
    (Snooflake.nextID ⟨0, 5, 3, 9⟩ 0).2.elapsedTime = 5 := by
  have h := (nextID_state_transition ⟨0, 5, 3, 9⟩ 0).2 (by decide)
  exact ⟨by decide, h.1, h.2.2.2.2 (by decide)⟩

/-- C10: allocation failure is not atomic: even when the call returns the
time-overflow error, the state update of steps 2-3 (captured by `nextState`)
has been applied, and it never leaves both mutable fields unchanged. -/
theorem nextID_error_state_updated (sf : Snooflake) (nowNano : Int)
    (h : (sf.nextID nowNano).1 = .error "over the time limit") :
    (sf.nextID nowNano).2 = nextState sf nowNano ∧
    ((sf.nextID nowNano).2.elapsedTime ≠ sf.elapsedTime ∨
     (sf.nextID nowNano).2.sequence ≠ sf.sequence) := by
  refine ⟨nextID_snd sf nowNano, ?_⟩
  rw [nextID_snd]
  unfold nextState
  dsimp only
  split_ifs <;> dsimp only <;> omega

/-- C7: construction yields no generator exactly when the configured epoch is
strictly in the future, the machine-identity resolution fails, or a supplied
validator rejects the resolved identity; a successful construction starts
with `sequence = 2 ^ 8 - 1` and `elapsedTime = 0`, the epoch defaulting to
2014-09-01 00:00:00 UTC when unset. -/
theorem NewSnooflake_spec (st : Settings) (nowNano : Int) (addrs : List IfAddr) :
    (NewSnooflake st nowNano addrs = none ↔
      timeAfter st.StartTime nowNano = true ∨
      (∃ e, resolveMachineID st addrs = .error e) ∨
      (∃ f mid, st.CheckMachineID = some f ∧ resolveMachineID st addrs = .ok mid ∧
        f mid = false)) ∧
    (∀ sf, NewSnooflake st nowNano addrs = some sf →
      sf.sequence = 2 ^ 8 - 1 ∧ sf.elapsedTime = 0 ∧
      (st.StartTime = none → sf.startTime = toSnooflakeTime defaultEpochNano) ∧
      (∀ t0, st.StartTime = some t0 → sf.startTime = toSnooflakeTime t0)) := by
  unfold NewSnooflake
  by_cases hA : timeAfter st.StartTime nowNano = true
  · rw [if_pos hA]
    exact ⟨by simp [hA], fun sf h => by simp at h⟩
  · rw [if_neg hA]
    dsimp only
    rcases hR : resolveMachineID st addrs with e | mid
    · dsimp only
      refine ⟨by simp [hA], fun sf h => by simp at h⟩
    · rcases hC : st.CheckMachineID with _ | f
      · dsimp only
        constructor
        · simp [hA, hC]
        · intro sf h
          simp only [Option.some.injEq] at h
          subst h
          refine ⟨(by decide : (1 <<< BitLenSequence - 1 : Nat) = 2 ^ 8 - 1), rfl, ?_, ?_⟩
          · intro hS; rw [hS]
          · intro t0 hS; rw [hS]
      · dsimp only
        by_cases hF : f mid = true
        · rw [if_pos hF]
          constructor
          · simp [hA, hC, hF]
          · intro sf h
            simp only [Option.some.injEq] at h
            subst h
            refine ⟨(by decide : (1 <<< BitLenSequence - 1 : Nat) = 2 ^ 8 - 1), rfl, ?_, ?_⟩
            · intro hS; rw [hS]
            · intro t0 hS; rw [hS]
        · rw [if_neg hF]
          refine ⟨?_, fun sf h => by simp at h⟩
          simp only [true_iff]
          exact Or.inr (Or.inr ⟨f, mid, rfl, rfl, by simpa using hF⟩)

theorem NewSnooflake_spec_witness :
    NewSnooflake ⟨none, some (.ok 9), none⟩ defaultEpochNano [] =
      some ⟨1409529600000, 0, 255, 9⟩ ∧
    (1409529600000 : Int) = toSnooflakeTime defaultEpochNano ∧
    (255 : Nat) = 2 ^ 8 - 1 := by
  have hw : NewSnooflake ⟨none, some (.ok 9), none⟩ defaultEpochNano [] =
      some ⟨1409529600000, 0, 255, 9⟩ := by rfl
  have h := (NewSnooflake_spec ⟨none, some (.ok 9), none⟩ defaultEpochNano []).2 _ hw
  exact ⟨hw, (h.2.2.1 rfl).symm ▸ rfl, h.1⟩

theorem privateIPv4_error_iff (addrs : List IfAddr) :
    (∃ e, privateIPv4 addrs = .error e) ↔
      ∀ a ∈ addrs, ¬(a.isIPNet = true ∧ a.loopback = false ∧ isPrivateIPv4 a.v4 = true) := by
  induction addrs with
  | nil => simp [privateIPv4]
  | cons a rest ih =>
    unfold privateIPv4
    by_cases h1 : (!a.isIPNet || a.loopback) = true
    · rw [if_pos h1]
      rw [List.forall_mem_cons, ih]
      simp only [Bool.or_eq_true, Bool.not_eq_true'] at h1
      have hna : ¬(a.isIPNet = true ∧ a.loopback = false ∧ isPrivateIPv4 a.v4 = true) := by
        rintro ⟨hi, hl, _⟩
        rcases h1 with h1 | h1
        · rw [hi] at h1; cases h1
        · rw [hl] at h1; cases h1
      simp [hna]
    · rw [if_neg h1]
      simp only [Bool.or_eq_true, Bool.not_eq_true', not_or, Bool.not_eq_false] at h1
      by_cases h2 : isPrivateIPv4 a.v4 = true
      · rw [if_pos h2]
        rw [List.forall_mem_cons]
        constructor
        · rintro ⟨e, he⟩; cases he
        · rintro ⟨hna, _⟩
          exact absurd ⟨h1.1, by simpa using h1.2, h2⟩ hna
      · rw [if_neg h2]
        rw [List.forall_mem_cons, ih]
        have hna : ¬(a.isIPNet = true ∧ a.loopback = false ∧ isPrivateIPv4 a.v4 = true) := by
          rintro ⟨_, _, hp⟩
          exact h2 hp
        simp [hna]

theorem lower16_error_iff (addrs : List IfAddr) :
    (∃ e, lower16BitPrivateIP addrs = .error e) ↔ (∃ e, privateIPv4 addrs = .error e) := by
  unfold lower16BitPrivateIP
  rcases h : privateIPv4 addrs with e | ip <;> simp

/-- C9: the default machine-identity derivation: `isPrivateIPv4` accepts
exactly the addresses of `10.0.0.0/8`, `172.16.0.0/12` and `192.168.0.0/16`;
the derived 16-bit identity of the selected address is
`octet3 <<< 8 ||| octet4`; and the derivation fails exactly when the scan
finds no private IPv4 address. -/
theorem privateIP_classification (ip : Nat × Nat × Nat × Nat) (addrs : List IfAddr) :
    (isPrivateIPv4 (some ip) = true ↔ specPrivateRange ip) ∧
    (∀ sel, privateIPv4 addrs = .ok sel → sel.2.2.2 < 2 ^ 8 →
      lower16BitPrivateIP addrs = .ok (sel.2.2.1 <<< 8 ||| sel.2.2.2)) ∧
    ((∃ e, lower16BitPrivateIP addrs = .error e) ↔
      ∀ a ∈ addrs, ¬(a.isIPNet = true ∧ a.loopback = false ∧ isPrivateIPv4 a.v4 = true)) := by
  refine ⟨?_, ?_, (lower16_error_iff addrs).trans (privateIPv4_error_iff addrs)⟩
  · obtain ⟨o0, o1, o2, o3⟩ := ip
    unfold isPrivateIPv4 specPrivateRange
    simp only [Bool.or_eq_true, Bool.and_eq_true, beq_iff_eq, decide_eq_true_eq]
    omega
  · intro sel hsel hb
    unfold lower16BitPrivateIP
    rw [hsel]
    dsimp only
    have hadd : sel.2.2.1 <<< 8 + sel.2.2.2 = sel.2.2.1 <<< 8 ||| sel.2.2.2 := by
      rw [Nat.shiftLeft_eq, Nat.mul_comm]
      exact Nat.mul_add_lt_is_or hb sel.2.2.1
    rw [hadd]

theorem privateIP_classification_witness :
    (isPrivateIPv4 (some (10, 0, 1, 2)) = true ↔ specPrivateRange (10, 0, 1, 2)) ∧
    privateIPv4 [⟨true, false, some (10, 0, 1, 2)⟩] = .ok (10, 0, 1, 2) ∧
    (2 : Nat) < 2 ^ 8 ∧
    lower16BitPrivateIP [⟨true, false, some (10, 0, 1, 2)⟩] = .ok (1 <<< 8 ||| 2) := by
  have hsel : privateIPv4 [⟨true, false, some (10, 0, 1, 2)⟩] = .ok (10, 0, 1, 2) := by rfl
  have h := privateIP_classification (10, 0, 1, 2) [⟨true, false, some (10, 0, 1, 2)⟩]
  exact ⟨h.1, hsel, by decide, h.2.1 (10, 0, 1, 2) hsel (by decide)⟩

theorem and_mask_sequence (x : Nat) :
    (x &&& ((1 <<< BitLenSequence - 1) <<< BitLenMachineID)) >>> BitLenMachineID =
      x / 2 ^ 16 % 2 ^ 8 := by
  rw [show ((1 <<< BitLenSequence - 1) <<< BitLenMachineID : Nat) = (2 ^ 8 - 1) <<< 16 by decide,
    bitLenMachineID_eq]
  apply Nat.eq_of_testBit_eq
  intro j
  rw [show x / 2 ^ 16 = x >>> 16 from (Nat.shiftRight_eq_div_pow x 16).symm]
  simp only [Nat.testBit_shiftRight, Nat.testBit_and, Nat.testBit_shiftLeft,
    Nat.testBit_two_pow_sub_one, Nat.testBit_mod_two_pow]
  simp only [ge_iff_le, Nat.le_add_right, decide_True, Bool.true_and, Nat.add_sub_cancel_left]
  exact Bool.and_comm _ _

theorem and_mask_machine (x : Nat) :
    x &&& (1 <<< BitLenMachineID - 1) = x % 2 ^ 16 := by
  rw [show (1 <<< BitLenMachineID - 1 : Nat) = 2 ^ 16 - 1 by decide]
  exact Nat.and_pow_two_sub_one_eq_mod x 16

theorem Decompose_keys (id : Nat) :
    (Decompose id).map Prod.fst = ["id", "msb", "time", "sequence", "machine-id"] := rfl

theorem Decompose_lookup_id (id : Nat) : (Decompose id).lookup "id" = some id := rfl

theorem Decompose_lookup_msb (id : Nat) :
    (Decompose id).lookup "msb" = some (id / 2 ^ 63) := by
  have h : (Decompose id).lookup "msb" = some (id >>> 63) := rfl
  rw [h, Nat.shiftRight_eq_div_pow]

theorem Decompose_lookup_time (id : Nat) :
    (Decompose id).lookup "time" = some (id / 2 ^ 24) := by
  have h : (Decompose id).lookup "time" =
      some (id >>> (BitLenSequence + BitLenMachineID)) := rfl
  rw [h, bitLenShift_time, Nat.shiftRight_eq_div_pow]

theorem Decompose_lookup_sequence (id : Nat) :
    (Decompose id).lookup "sequence" = some (id / 2 ^ 16 % 2 ^ 8) := by
  have h : (Decompose id).lookup "sequence" =
      some ((id &&& ((1 <<< BitLenSequence - 1) <<< BitLenMachineID)) >>> BitLenMachineID) := rfl
  rw [h, and_mask_sequence]

theorem Decompose_lookup_machine (id : Nat) :
    (Decompose id).lookup "machine-id" = some (id % 2 ^ 16) := by
  have h : (Decompose id).lookup "machine-id" =
      some (id &&& (1 <<< BitLenMachineID - 1)) := rfl
  rw [h, and_mask_machine]

/-- C1: round-trip law between the packing of `toID` and `Decompose`: for
every `t < 2 ^ 39`, `s < 2 ^ 8`, `m < 2 ^ 16`, `toID` on a state carrying
these fields succeeds with the encoded value `t <<< 24 ||| s <<< 16 ||| m`,
and decomposing that value yields exactly `time = t`, `sequence = s`,
`machine-id = m`, `msb = 0` and `id` the encoded value itself. -/
theorem toID_Decompose_roundtrip (start : Int) (t s m : Nat)
    (ht : t < 2 ^ 39) (hs : s < 2 ^ 8) (hm : m < 2 ^ 16) :
    Snooflake.toID ⟨start, (t : Int), s, m⟩ = .ok (t <<< 24 ||| s <<< 16 ||| m) ∧
    (Decompose (t <<< 24 ||| s <<< 16 ||| m)).lookup "time" = some t ∧
    (Decompose (t <<< 24 ||| s <<< 16 ||| m)).lookup "sequence" = some s ∧
    (Decompose (t <<< 24 ||| s <<< 16 ||| m)).lookup "machine-id" = some m ∧
    (Decompose (t <<< 24 ||| s <<< 16 ||| m)).lookup "msb" = some 0 ∧
    (Decompose (t <<< 24 ||| s <<< 16 ||| m)).lookup "id" =
      some (t <<< 24 ||| s <<< 16 ||| m) := by
  have henc : t <<< 24 ||| s <<< 16 ||| m = t * 2 ^ 24 + s * 2 ^ 16 + m :=
    pack_or_eq_add ht hs hm
  refine ⟨?_, ?_, ?_, ?_, ?_, Decompose_lookup_id _⟩
  · rw [toID_eq_ok ⟨start, (t : Int), s, m⟩ (Int.natCast_nonneg t)
      (by show (t : Int) < (2 : Int) ^ 39; exact_mod_cast ht) hs hm]
    unfold idNat
    rw [henc]
    dsimp only
    simp
  · rw [Decompose_lookup_time, henc]
    simp only [Option.some.injEq]
    omega
  · rw [Decompose_lookup_sequence, henc]
    simp only [Option.some.injEq]
    omega
  · rw [Decompose_lookup_machine, henc]
    simp only [Option.some.injEq]
    omega
  · rw [Decompose_lookup_msb, henc]
    simp only [Option.some.injEq]
    omega

theorem toID_Decompose_roundtrip_witness :
    (3 : Nat) < 2 ^ 39 ∧ (2 : Nat) < 2 ^ 8 ∧ (5 : Nat) < 2 ^ 16 ∧
    Snooflake.toID ⟨0, (3 : Nat), 2, 5⟩ = .ok (3 <<< 24 ||| 2 <<< 16 ||| 5) ∧
    (Decompose (3 <<< 24 ||| 2 <<< 16 ||| 5)).lookup "time" = some 3 ∧
    (Decompose (3 <<< 24 ||| 2 <<< 16 ||| 5)).lookup "sequence" = some 2 ∧
    (Decompose (3 <<< 24 ||| 2 <<< 16 ||| 5)).lookup "machine-id" = some 5 := by
  have h := toID_Decompose_roundtrip 0 3 2 5 (by decide) (by decide) (by decide)
  exact ⟨by decide, by decide, by decide, h.1, h.2.1, h.2.2.1, h.2.2.2.1⟩

/-- C8 (amended): `Decompose` is total over `uint64`, returns exactly the five
keys `id`, `msb`, `time`, `sequence`, `machine-id`; `id` is the input, `msb`
is bit 63, `sequence` is bits 16..23 and `machine-id` is bits 0..15, while
`time` is bits 24..63 — the extraction `id >> 24` keeps the top bit, it does
not mask it off to bits 24..62. -/
theorem Decompose_total_fields (id : Nat) (h : id < 2 ^ 64) :
    (Decompose id).map Prod.fst = ["id", "msb", "time", "sequence", "machine-id"] ∧
    (Decompose id).lookup "id" = some id ∧
    (Decompose id).lookup "msb" = some (id / 2 ^ 63) ∧ id / 2 ^ 63 ≤ 1 ∧
    (Decompose id).lookup "time" = some (id / 2 ^ 24) ∧
    (Decompose id).lookup "sequence" = some (id / 2 ^ 16 % 2 ^ 8) ∧
    (Decompose id).lookup "machine-id" = some (id % 2 ^ 16) :=
  ⟨Decompose_keys id, Decompose_lookup_id id, Decompose_lookup_msb id, by omega,
    Decompose_lookup_time id, Decompose_lookup_sequence id, Decompose_lookup_machine id⟩

theorem Decompose_total_fields_witness :
    (2 ^ 64 - 1 : Nat) < 2 ^ 64 ∧
    (Decompose (2 ^ 64 - 1)).lookup "time" = some ((2 ^ 64 - 1) / 2 ^ 24) ∧
    (Decompose (2 ^ 64 - 1)).lookup "machine-id" = some ((2 ^ 64 - 1) % 2 ^ 16) := by
  have h := Decompose_total_fields (2 ^ 64 - 1) (by norm_num)
  exact ⟨by norm_num, h.2.2.2.2.1, h.2.2.2.2.2.2⟩

/-- C8 counterexample: at input `2 ^ 63` (most significant bit set) the code's
`time` part is `id >> 24 = 2 ^ 39`, whereas the value of bits 24..62 of that
input is `0`, so "time is bits 24..62" fails as stated. -/
theorem Decompose_time_width_counterexample :
    (Decompose (2 ^ 63)).lookup "time" = some (2 ^ 39) ∧
    2 ^ 63 / 2 ^ 24 % 2 ^ 39 = 0 ∧ (2 ^ 39 : Nat) ≠ 0 := by
  refine ⟨?_, by norm_num, by norm_num⟩
  rw [Decompose_lookup_time]
  norm_num

/-- C3: the code's elapsed-time unit is one millisecond, not the ten
milliseconds the documentation states: `snooflakeTimeUnit = 1e6` nanoseconds,
so 25 ms after the epoch the first allocation carries `time = 25`
(a 10 ms unit would give `time = 2`). -/
theorem time_unit_one_millisecond :
    snooflakeTimeUnit = 1000000 ∧
    currentElapsedTime (toSnooflakeTime defaultEpochNano) (defaultEpochNano + 25 * 1000000) = 25 ∧
    (Snooflake.nextID ⟨toSnooflakeTime defaultEpochNano, 0, 2 ^ 8 - 1, 7⟩
        (defaultEpochNano + 25 * 1000000)).1 = .ok (25 * 2 ^ 24 + 7) ∧
    (Decompose (25 * 2 ^ 24 + 7)).lookup "time" = some 25 ∧
    (Decompose (25 * 2 ^ 24 + 7)).lookup "sequence" = some 0 ∧
    (25 : Nat) ≠ 2 := by
  refine ⟨rfl, by decide, by rfl, ?_, ?_, by decide⟩
  · rw [Decompose_lookup_time]
    norm_num
  · rw [Decompose_lookup_sequence]
    norm_num

theorem nextID_error_state_updated_witness :
    (Snooflake.nextID ⟨0, 2 ^ 39, 3, 1⟩ 0).1 = .error "over the time limit" ∧
    (Snooflake.nextID ⟨0, 2 ^ 39, 3, 1⟩ 0).2 = nextState ⟨0, 2 ^ 39, 3, 1⟩ 0 ∧
    ((Snooflake.nextID ⟨0, 2 ^ 39, 3, 1⟩ 0).2.elapsedTime ≠ (2 : Int) ^ 39 ∨
     (Snooflake.nextID ⟨0, 2 ^ 39, 3, 1⟩ 0).2.sequence ≠ 3) := by
  have herr : (Snooflake.nextID ⟨0, 2 ^ 39, 3, 1⟩ 0).1 = .error "over the time limit" := by rfl
  have h := nextID_error_state_updated ⟨0, 2 ^ 39, 3, 1⟩ 0 herr
  exact ⟨herr, h.1, h.2⟩

theorem producedIDs_length_le (clock : Nat → Int) :
    ∀ fuel i sf, (producedIDs clock i fuel sf).length ≤ fuel := by
  intro fuel
  induction fuel with
  | zero => intro i sf; simp [producedIDs]
  | succ fuel ih =>
    intro i sf
    rcases hres : sf.nextID (clock i) with ⟨r, sf2⟩
    unfold producedIDs
    rw [hres]
    rcases r with e | v
    · simp
    · dsimp only
      simp only [List.length_cons]
      exact Nat.succ_le_succ (ih (i + 1) sf2)

theorem nextIDsGo_spec (clock : Nat → Int) :
    ∀ fuel i ids sf, i + fuel = ids.length →
      ids.drop i = List.replicate fuel (0 : Nat) →
      (nextIDsGo clock i fuel ids sf).1 =
        ids.take i ++ producedIDs clock i fuel sf ++
          List.replicate (fuel - (producedIDs clock i fuel sf).length) 0 ∧
      ((nextIDsGo clock i fuel ids sf).2.1 = none ↔
        (producedIDs clock i fuel sf).length = fuel) := by
  intro fuel
  induction fuel with
  | zero =>
    intro i ids sf hlen hdrop
    constructor
    · simp [nextIDsGo, producedIDs, List.take_of_length_le (by omega : ids.length ≤ i)]
    · simp [nextIDsGo, producedIDs]
  | succ fuel ih =>
    intro i ids sf hlen hdrop
    have hi : i < ids.length := by omega
    rcases hres : sf.nextID (clock i) with ⟨r, sf2⟩
    unfold nextIDsGo producedIDs
    rw [hres]
    rcases r with e | v
    · dsimp only
      constructor
      · conv_lhs => rw [← List.take_append_drop i ids]
        rw [hdrop]
        simp
      · simp
    · dsimp only
      have hlen2 : (i + 1) + fuel = (ids.set i v).length := by
        rw [List.length_set]; omega
      have hdrop2 : (ids.set i v).drop (i + 1) = List.replicate fuel 0 := by
        rw [List.drop_set_of_lt v ids (Nat.lt_succ_self i)]
        show List.drop (i + 1) ids = List.replicate fuel 0
        rw [← List.drop_drop, hdrop, List.drop_replicate]
        norm_num
      have hih := ih (i + 1) (ids.set i v) sf2 hlen2 hdrop2
      have htake : (ids.set i v).take (i + 1) = ids.take i ++ [v] := by
        rw [List.set_eq_take_cons_drop v hi, List.take_append_eq_append_take,
          List.take_of_length_le (by rw [List.length_take]; omega)]
        congr 1
        rw [List.length_take]
        rw [show i + 1 - min i ids.length = 1 by omega]
        rfl
      constructor
      · rw [hih.1, htake]
        simp only [List.length_cons, Nat.succ_sub_succ_eq_sub]
        simp [List.append_assoc]
      · simp only [List.length_cons]
        rw [hih.2]
        omega

/-- C4 (amended): the batch allocator returns a slice of length `N` in every
case: with a first failure at item `k < N` it returns the `k` produced values
in positions `0..k-1` and zeros in the remaining `N - k` positions, together
with the failure; with no failure it returns all `N` produced values and no
error. -/
theorem NextIDs_partial_batch (sf : Snooflake) (clock : Nat → Int) (num : Nat) :
    (sf.NextIDs clock num).1 =
      producedIDs clock 0 num sf ++
        List.replicate (num - (producedIDs clock 0 num sf).length) 0 ∧
    ((sf.NextIDs clock num).2.1 = none ↔ (producedIDs clock 0 num sf).length = num) ∧
    (producedIDs clock 0 num sf).length ≤ num := by
  have h := nextIDsGo_spec clock num 0 (List.replicate num 0) sf (by simp) (by simp)
  refine ⟨?_, h.2, producedIDs_length_le clock num 0 sf⟩
  simpa using h.1

/-- C4 counterexample: with a generator whose `elapsedTime` is already
`2 ^ 39`, a batch of 2 fails at item 0, so zero values were produced, yet the
returned slice is `[0, 0]` — not the empty list that "items 0..k-1 and
nothing else" would require. -/
theorem NextIDs_padding_counterexample :
    (Snooflake.NextIDs ⟨0, 2 ^ 39, 0, 1⟩ (fun _ => 0) 2).1 = [0, 0] ∧
    (Snooflake.NextIDs ⟨0, 2 ^ 39, 0, 1⟩ (fun _ => 0) 2).2.1 = some "over the time limit" ∧
    producedIDs (fun _ => 0) 0 2 ⟨0, 2 ^ 39, 0, 1⟩ = [] :=
  ⟨rfl, rfl, rfl⟩
